import Mathlib

/-
  Verification development for the towalink/looselycoupled orchestration core.

  Shallow embedding of:
  - src/asyncmodules/metadata.py     (Priority, Metadata transaction ids)
  - src/asyncmodules/cmdqueue.py     (CmdQueue.put over asyncio.PriorityQueue / heapq)
  - src/asyncmodules/eventloop.py    (EventLoop.process_task)
  - src/looselycoupled/module.py     (Module lifecycle state machine)
  - src/looselycoupled/modulemanager.py (ModuleManager dispatch, broadcast, shutdown)

  Python-level behaviours that matter to the claims are modelled explicitly:
  fallible operations return Except PyError, CPython tuple comparison semantics
  are reproduced for heap entries (enum.Enum members support equality but raise
  TypeError on an order comparison), and asynchronous control flow is rendered
  as sequential state passing with explicit traces.
-/

set_option linter.unusedVariables false

namespace LooselyCoupled

/-- The Priority enum of src/asyncmodules/metadata.py: plain enum.Enum with
members HIGHEST=1, HIGH=2, NORMAL=3, LOW=4, LOWEST=5.  Being a plain Enum, its
members support equality but no order comparison. -/
inductive Priority where
  | HIGHEST
  | HIGH
  | NORMAL
  | LOW
  | LOWEST
deriving DecidableEq, Repr

instance : Inhabited Priority := ⟨Priority.NORMAL⟩

/-- Numeric enum value of each Priority member, as assigned in the source. -/
def Priority.value : Priority → Nat
  | .HIGHEST => 1
  | .HIGH => 2
  | .NORMAL => 3
  | .LOW => 4
  | .LOWEST => 5

/-- Python exceptions that the embedded code can raise. -/
inductive PyError where
  | typeError (msg : String)
  | assertionError
deriving DecidableEq, Repr

/-- Identity of a metadata source object (Metadata.source_obj): the manager,
a registered module, or None.  Python compares these by object identity. -/
inductive Source where
  | noneObj
  | manager
  | moduleObj (name : String)
deriving DecidableEq, Repr

/-- The Metadata namedtuple of src/asyncmodules/metadata.py:
(transaction, priority, source_obj, source_name). -/
structure Metadata where
  transaction : String
  priority : Priority
  source_obj : Source
  source_name : Option String
deriving DecidableEq, Repr

/-- The CmdQueue.QueueItem namedtuple of src/asyncmodules/cmdqueue.py:
(target, metadata, kwargs).  kwargs is a dict; dicts support equality by
content but raise TypeError on order comparison, so we only record an
identifier sufficient for deciding equality. -/
structure QueueItem where
  target : String
  metadata : Metadata
  kwargs : Nat
deriving DecidableEq, Repr

/-- A heap entry as built by CmdQueue.put: the pair
(metadata.priority, QueueItem(target, metadata, kwargs)). -/
abbrev Entry := Priority × QueueItem

instance : Inhabited QueueItem := ⟨⟨"", ⟨"", default, Source.noneObj, none⟩, 0⟩⟩

/-- CPython `<` on two Option String values (None or str).  Two strings
compare lexicographically; any comparison involving None raises TypeError. -/
def pyLtOptString (a b : Option String) : Except PyError Bool :=
  match a, b with
  | some x, some y => Except.ok (decide (x < y))
  | _, _ => Except.error (PyError.typeError "NoneType is not orderable")

/-- CPython tuple comparison on two Metadata namedtuples: scan for the first
field where the values differ (by ==) and compare that field with `<`.
Priority enum members and source objects raise TypeError on `<`. -/
def pyLtMetadata (a b : Metadata) : Except PyError Bool :=
  if a.transaction ≠ b.transaction then Except.ok (decide (a.transaction < b.transaction))
  else if a.priority ≠ b.priority then
    Except.error (PyError.typeError "lt not supported between instances of Priority")
  else if a.source_obj ≠ b.source_obj then
    Except.error (PyError.typeError "lt not supported on source objects")
  else if a.source_name ≠ b.source_name then pyLtOptString a.source_name b.source_name
  else Except.ok false

/-- CPython tuple comparison on two QueueItem namedtuples
(fields target, metadata, kwargs in order).  Dicts raise TypeError on `<`. -/
def pyLtQueueItem (a b : QueueItem) : Except PyError Bool :=
  if a.target ≠ b.target then Except.ok (decide (a.target < b.target))
  else if a.metadata ≠ b.metadata then pyLtMetadata a.metadata b.metadata
  else if a.kwargs ≠ b.kwargs then
    Except.error (PyError.typeError "lt not supported between instances of dict")
  else Except.ok false

/-- CPython tuple comparison on two heap entries (priority, item).  The first
components are Priority enum members: they compare equal or raise TypeError,
because enum.Enum defines no order comparison. -/
def pyLtEntry (a b : Entry) : Except PyError Bool :=
  if a.1 ≠ b.1 then
    Except.error (PyError.typeError "lt not supported between instances of Priority")
  else pyLtQueueItem a.2 b.2

/-- The while loop of CPython heapq._siftdown: walk from pos towards startpos,
moving parents down while newitem compares less than the parent; finally store
newitem at the reached position.  Comparison failures propagate. -/
def siftdownAux (startpos : Nat) (newitem : Entry) (heap : List Entry) (pos : Nat) :
    Except PyError (List Entry) :=
  if h : startpos < pos then
    let parentpos := (pos - 1) / 2
    let parent := heap.getD parentpos default
    match pyLtEntry newitem parent with
    | Except.error e => Except.error e
    | Except.ok true => siftdownAux startpos newitem (heap.set pos parent) parentpos
    | Except.ok false => Except.ok (heap.set pos newitem)
  else Except.ok (heap.set pos newitem)
termination_by pos
decreasing_by omega

/-- CPython heapq.heappush: append the item, then sift it down towards the
root (this is what asyncio.PriorityQueue._put does). -/
def heappush (heap : List Entry) (item : Entry) : Except PyError (List Entry) :=
  siftdownAux 0 item (heap ++ [item]) (heap ++ [item]).length.pred

/-- Embeds CmdQueue.put of src/asyncmodules/cmdqueue.py: push the pair
(metadata.priority, QueueItem(target, metadata, kwargs)) onto the heap of the
underlying asyncio.PriorityQueue. -/
def cmdQueuePut (queue : List Entry) (target : String) (metadata : Metadata)
    (kwargs : Nat) : Except PyError (List Entry) :=
  heappush queue (metadata.priority, QueueItem.mk target metadata kwargs)

/-- A concrete metadata value of the given priority, mirroring
Metadata(priority=p) with a generated transaction id. -/
def mkMeta (transaction : String) (p : Priority) : Metadata :=
  Metadata.mk transaction p Source.manager (some "modulemanager")

/-- Putting a first item into an empty CmdQueue succeeds: the heap is a
singleton and heappush performs no comparison. -/
theorem cmdQueuePut_empty_ok (target : String) (md : Metadata) (kw : Nat) :
    cmdQueuePut [] target md kw =
      Except.ok [(md.priority, QueueItem.mk target md kw)] := by
  simp [cmdQueuePut, heappush, siftdownAux]

/-- Pushing onto a one-element heap whose entry carries a different Priority
member makes heapq compare the two Priority enum members with lt, which raises
TypeError (enum.Enum defines no order comparison). -/
theorem heappush_second_priority_raises (e1 e2 : Entry) (h : e2.1 ≠ e1.1) :
    heappush [e1] e2 =
      Except.error (PyError.typeError "lt not supported between instances of Priority") := by
  simp [heappush, siftdownAux, pyLtEntry, h]

/-- C1: the spec claims that enqueuing a HIGHEST-priority and a LOWEST-priority
item, in either arrival order, makes get() dequeue HIGHEST first.  On the code,
the second put already raises TypeError in both arrival orders: heapq compares
the two entries, reaches the Priority enum members (which define no order
comparison), and fails.  This theorem evaluates the embedded CmdQueue.put at
that failing input. -/
theorem C1_put_two_priorities_raises_typeError :
    ((cmdQueuePut [] "a.m" (mkMeta "t0" Priority.HIGHEST) 0).bind
        (fun q => cmdQueuePut q "b.n" (mkMeta "t1" Priority.LOWEST) 1) =
      Except.error (PyError.typeError "lt not supported between instances of Priority")) ∧
    ((cmdQueuePut [] "a.m" (mkMeta "t0" Priority.LOWEST) 0).bind
        (fun q => cmdQueuePut q "b.n" (mkMeta "t1" Priority.HIGHEST) 1) =
      Except.error (PyError.typeError "lt not supported between instances of Priority")) := by
  set_option maxRecDepth 4000 in
  constructor <;>
    simp [cmdQueuePut, heappush, siftdownAux, pyLtEntry, pyLtQueueItem, pyLtMetadata, mkMeta,
      Except.bind]

/-! ### Metadata transaction ids (src/asyncmodules/metadata.py, Metadata.__new__) -/

/-- Little-endian decimal digits with explicit fuel (structural recursion so
that the kernel can evaluate it); the fuel is always at least the number of
digits when called through decimalDigitsLE. -/
def decimalDigitsLEFuel : Nat → Nat → List Nat
  | 0, _ => []
  | fuel + 1, n => if n = 0 then [] else (n % 10) :: decimalDigitsLEFuel fuel (n / 10)

/-- Little-endian decimal digits of n (empty list for 0): the digit extraction
underlying decimal formatting of Metadata.counter in the f-string. -/
def decimalDigitsLE (n : Nat) : List Nat :=
  decimalDigitsLEFuel n n

/-- The ASCII character of a decimal digit. -/
def charOfDigit (d : Nat) : Char :=
  Char.ofNat (48 + d)

/-- The decimal character string of n, most significant digit first:
Python str(n) for a non-negative int. -/
def decimalChars (n : Nat) : List Char :=
  if n = 0 then [Char.ofNat 48] else ((decimalDigitsLE n).reverse).map charOfDigit

/-- Python format specifier 06 on a non-negative int: the decimal characters,
left-padded with 0 characters to a minimum width of 6 (numbers with more than
six digits are rendered in full, without truncation). -/
def format06 (n : Nat) : List Char :=
  List.replicate (6 - (decimalChars n).length) (Char.ofNat 48) ++ decimalChars n

/-- The transaction id built in Metadata.__new__:
formatted_time plus a dash plus the 06-formatted counter. -/
def mkTransaction (formatted_time : String) (counter : Nat) : String :=
  formatted_time ++ "-" ++ String.mk (format06 counter)

/-- The process-wide class state of Metadata: the id counter and the formatted
time of the last transaction. -/
structure MetaGenState where
  counter : Nat
  last_time : Option String
deriving DecidableEq, Repr

/-- Embeds the transaction branch of Metadata.__new__ for transaction=None:
if last_time differs from the current formatted time, reset last_time and the
counter; build the id from formatted_time and the 6-digit counter; increment
the counter. -/
def metadataNewTransaction (st : MetaGenState) (formatted_time : String) :
    String × MetaGenState :=
  let st1 := if st.last_time ≠ some formatted_time
    then MetaGenState.mk 0 (some formatted_time) else st
  (mkTransaction formatted_time st1.counter, MetaGenState.mk (st1.counter + 1) st1.last_time)

/-- Generate n transaction ids in sequence, all within the same formatted
wall-clock second t, threading the class state. -/
def generateTransactions (t : String) : Nat → MetaGenState → List String × MetaGenState
  | 0, st => ([], st)
  | n + 1, st =>
    let p := metadataNewTransaction st t
    let q := generateTransactions t n p.2
    (p.1 :: q.1, q.2)

/-- Little-endian value of a digit list. -/
def valLE : List Nat → Nat
  | [] => 0
  | d :: ds => d + 10 * valLE ds

/-- Big-endian value of a digit list. -/
def valBE : List Nat → Nat
  | [] => 0
  | d :: ds => d * 10 ^ ds.length + valBE ds

theorem decimalDigitsLEFuel_val (fuel n : Nat) (h : n ≤ fuel) :
    valLE (decimalDigitsLEFuel fuel n) = n := by
  induction fuel generalizing n with
  | zero => interval_cases n; rfl
  | succ fuel ih =>
    by_cases hn : n = 0
    · simp [decimalDigitsLEFuel, hn, valLE]
    · have hdiv : n / 10 ≤ fuel := by omega
      simp [decimalDigitsLEFuel, hn, valLE, ih (n / 10) hdiv]
      omega

theorem valLE_decimalDigitsLE (n : Nat) : valLE (decimalDigitsLE n) = n :=
  decimalDigitsLEFuel_val n n le_rfl

theorem decimalDigitsLEFuel_bounded (fuel n : Nat) :
    ∀ d ∈ decimalDigitsLEFuel fuel n, d < 10 := by
  induction fuel generalizing n with
  | zero => simp [decimalDigitsLEFuel]
  | succ fuel ih =>
    by_cases hn : n = 0
    · simp [decimalDigitsLEFuel, hn]
    · simp only [decimalDigitsLEFuel, hn, if_false, List.mem_cons]
      rintro d (rfl | hd)
      · omega
      · exact ih (n / 10) d hd

theorem decimalDigitsLEFuel_length (fuel n k : Nat) (h : n < 10 ^ k) :
    (decimalDigitsLEFuel fuel n).length ≤ k := by
  induction fuel generalizing n k with
  | zero => simp [decimalDigitsLEFuel]
  | succ fuel ih =>
    by_cases hn : n = 0
    · simp [decimalDigitsLEFuel, hn]
    · have hk : k ≠ 0 := by
        rintro rfl
        simp at h
        omega
      obtain ⟨k, rfl⟩ := Nat.exists_eq_succ_of_ne_zero hk
      have hdiv : n / 10 < 10 ^ k := by
        rw [Nat.div_lt_iff_lt_mul (by norm_num)]
        calc n < 10 ^ (k + 1) := h
        _ = 10 ^ k * 10 := by ring
      simp only [decimalDigitsLEFuel, hn, if_false, List.length_cons]
      have := ih (n / 10) k hdiv
      omega

theorem valBE_append_singleton (xs : List Nat) (d : Nat) :
    valBE (xs ++ [d]) = valBE xs * 10 + d := by
  induction xs with
  | nil => simp [valBE]
  | cons x xs ih =>
    simp only [List.cons_append, valBE, ih, List.length_append, List.length_cons,
      List.length_nil, List.append_eq]
    ring

theorem valBE_reverse (ds : List Nat) : valBE ds.reverse = valLE ds := by
  induction ds with
  | nil => rfl
  | cons d ds ih =>
    simp only [List.reverse_cons, valBE_append_singleton, ih, valLE]
    ring

theorem valBE_replicate_zero (k : Nat) (ds : List Nat) :
    valBE (List.replicate k 0 ++ ds) = valBE ds := by
  induction k with
  | zero => simp
  | succ k ih => simp [List.replicate_succ, valBE, ih]

theorem valBE_lt_pow (ds : List Nat) (h : ∀ d ∈ ds, d < 10) :
    valBE ds < 10 ^ ds.length := by
  induction ds with
  | nil => simp [valBE]
  | cons d ds ih =>
    have hd : d < 10 := h d (by simp)
    have hds := ih (fun x hx => h x (List.mem_cons_of_mem d hx))
    simp only [valBE, List.length_cons, pow_succ]
    calc d * 10 ^ ds.length + valBE ds
        < d * 10 ^ ds.length + 10 ^ ds.length := Nat.add_lt_add_left hds _
      _ = (d + 1) * 10 ^ ds.length := (Nat.succ_mul d _).symm
      _ ≤ 10 * 10 ^ ds.length := Nat.mul_le_mul_right _ (by omega)
      _ = 10 ^ ds.length * 10 := Nat.mul_comm _ _

theorem charOfDigit_lt_iff (d e : Nat) (hd : d < 10) (he : e < 10) :
    charOfDigit d < charOfDigit e ↔ d < e := by
  interval_cases d <;> interval_cases e <;> decide

theorem charOfDigit_eq_iff (d e : Nat) (hd : d < 10) (he : e < 10) :
    charOfDigit d = charOfDigit e ↔ d = e := by
  interval_cases d <;> interval_cases e <;> decide

theorem char_lt_irrefl (c : Char) : ¬ c < c := by
  simp [Char.lt_def]

/-- Lexicographic comparison of the decimal character renderings of two
equal-length bounded digit lists agrees with comparison of their values. -/
theorem digitChars_lt (ds es : List Nat) (hlen : ds.length = es.length)
    (hds : ∀ d ∈ ds, d < 10) (hes : ∀ e ∈ es, e < 10) (hval : valBE ds < valBE es) :
    List.Lex (fun a b => a < b) (ds.map charOfDigit) (es.map charOfDigit) := by
  induction ds generalizing es with
  | nil =>
    cases es with
    | nil => simp [valBE] at hval
    | cons e es => simp at hlen
  | cons d ds ih =>
    cases es with
    | nil => simp at hlen
    | cons e es =>
      have hlen2 : ds.length = es.length := by simpa using hlen
      have hd : d < 10 := hds d (by simp)
      have he : e < 10 := hes e (by simp)
      rcases Nat.lt_trichotomy d e with hde | hde | hde
      · exact List.Lex.rel ((charOfDigit_lt_iff d e hd he).mpr hde)
      · subst hde
        have hval2 : valBE ds < valBE es := by
          simp only [valBE, hlen2] at hval
          omega
        exact List.Lex.cons
          (ih es hlen2 (fun x hx => hds x (List.mem_cons_of_mem _ hx))
            (fun x hx => hes x (List.mem_cons_of_mem _ hx)) hval2)
      · exfalso
        have hbound : valBE es < 10 ^ es.length :=
          valBE_lt_pow es (fun x hx => hes x (List.mem_cons_of_mem _ hx))
        have hmul : (e + 1) * 10 ^ es.length ≤ d * 10 ^ es.length :=
          Nat.mul_le_mul_right _ (by omega)
        simp only [valBE, hlen2] at hval
        have habs : d * 10 ^ es.length + valBE ds < d * 10 ^ es.length + valBE ds :=
          calc d * 10 ^ es.length + valBE ds
              < e * 10 ^ es.length + valBE es := hval
            _ < e * 10 ^ es.length + 10 ^ es.length := Nat.add_lt_add_left hbound _
            _ = (e + 1) * 10 ^ es.length := (Nat.succ_mul e _).symm
            _ ≤ d * 10 ^ es.length := hmul
            _ ≤ d * 10 ^ es.length + valBE ds := Nat.le_add_right _ _
        exact Nat.lt_irrefl _ habs

/-- Mapping digits below ten to characters is injective. -/
theorem digitChars_inj (ds es : List Nat) (hds : ∀ d ∈ ds, d < 10)
    (hes : ∀ e ∈ es, e < 10) (h : ds.map charOfDigit = es.map charOfDigit) : ds = es := by
  induction ds generalizing es with
  | nil => cases es <;> simp_all
  | cons d ds ih =>
    cases es with
    | nil => simp at h
    | cons e es =>
      simp only [List.map_cons, List.cons.injEq] at h
      have hd : d < 10 := hds d (by simp)
      have he : e < 10 := hes e (by simp)
      have hde : d = e := (charOfDigit_eq_iff d e hd he).mp h.1
      subst hde
      simp only [List.cons.injEq, true_and]
      exact ih es (fun x hx => hds x (List.mem_cons_of_mem _ hx))
        (fun x hx => hes x (List.mem_cons_of_mem _ hx)) h.2

/-- The digit sequence (most significant first, including leading zeros) that
format06 renders: the decimal digits of n, left-padded with zeros to width
six. -/
def padDigits (n : Nat) : List Nat :=
  let ds := if n = 0 then [0] else (decimalDigitsLE n).reverse
  List.replicate (6 - ds.length) 0 ++ ds

theorem format06_eq_padDigits (n : Nat) : format06 n = (padDigits n).map charOfDigit := by
  by_cases hn : n = 0
  · subst hn
    decide
  · simp [format06, padDigits, decimalChars, hn, List.map_append, List.map_replicate,
      charOfDigit, List.length_map]

theorem valBE_padDigits (n : Nat) : valBE (padDigits n) = n := by
  by_cases hn : n = 0
  · subst hn
    decide
  · simp only [padDigits, hn, if_false]
    rw [valBE_replicate_zero, valBE_reverse, valLE_decimalDigitsLE]

theorem padDigits_bounded (n : Nat) : ∀ d ∈ padDigits n, d < 10 := by
  intro d hd
  by_cases hn : n = 0
  · subst hn
    simp [padDigits, List.mem_replicate] at hd
    omega
  · simp only [padDigits, hn, if_false, List.mem_append, List.mem_replicate,
      List.mem_reverse] at hd
    rcases hd with ⟨_, rfl⟩ | hd
    · omega
    · exact decimalDigitsLEFuel_bounded n n d hd

theorem padDigits_length (n : Nat) (h : n < 10 ^ 6) : (padDigits n).length = 6 := by
  by_cases hn : n = 0
  · subst hn
    decide
  · have hlen : (decimalDigitsLE n).length ≤ 6 := decimalDigitsLEFuel_length n n 6 h
    simp only [padDigits, hn, if_false, List.length_append, List.length_replicate,
      List.length_reverse]
    omega

theorem padDigits_inj (a b : Nat) (h : padDigits a = padDigits b) : a = b := by
  have hv := congrArg valBE h
  rwa [valBE_padDigits, valBE_padDigits] at hv

theorem format06_inj (a b : Nat) (h : format06 a = format06 b) : a = b := by
  apply padDigits_inj
  apply digitChars_inj _ _ (padDigits_bounded a) (padDigits_bounded b)
  rwa [← format06_eq_padDigits, ← format06_eq_padDigits]

theorem format06_lt (a b : Nat) (hab : a < b) (hb : b < 10 ^ 6) :
    List.Lex (fun x y => x < y) (format06 a) (format06 b) := by
  rw [format06_eq_padDigits, format06_eq_padDigits]
  refine digitChars_lt _ _ ?_ (padDigits_bounded a) (padDigits_bounded b) ?_
  · rw [padDigits_length a (lt_trans hab hb), padDigits_length b hb]
  · rw [valBE_padDigits, valBE_padDigits]
    exact hab

theorem list_lex_append_left (p xs ys : List Char)
    (h : List.Lex (fun x y => x < y) xs ys) :
    List.Lex (fun x y => x < y) (p ++ xs) (p ++ ys) := by
  induction p with
  | nil => exact h
  | cons a p ih => exact List.Lex.cons ih

theorem mkTransaction_data (t : String) (c : Nat) :
    (mkTransaction t c).data = (t.data ++ [Char.ofNat 45]) ++ format06 c := by
  simp [mkTransaction, String.data_append]

theorem mkTransaction_lt (t : String) (a b : Nat) (hab : a < b) (hb : b < 10 ^ 6) :
    mkTransaction t a < mkTransaction t b := by
  rw [String.lt_iff_toList_lt]
  show List.Lex (fun x y => x < y) (mkTransaction t a).data (mkTransaction t b).data
  rw [mkTransaction_data, mkTransaction_data]
  exact list_lex_append_left _ _ _ (format06_lt a b hab hb)

theorem mkTransaction_injective (t : String) : Function.Injective (mkTransaction t) := by
  intro a b h
  have hdata := congrArg String.data h
  rw [mkTransaction_data, mkTransaction_data] at hdata
  exact format06_inj a b (List.append_cancel_left hdata)

theorem generateTransactions_length (t : String) (n : Nat) (st : MetaGenState) :
    (generateTransactions t n st).1.length = n := by
  induction n generalizing st with
  | zero => rfl
  | succ n ih => simp [generateTransactions, ih]

theorem generateTransactions_from_counter (t : String) (n k : Nat) :
    (generateTransactions t n (MetaGenState.mk k (some t))).1 =
      (List.range' k n).map (mkTransaction t) := by
  induction n generalizing k with
  | zero => rfl
  | succ n ih =>
    have hstep : metadataNewTransaction (MetaGenState.mk k (some t)) t =
        (mkTransaction t k, MetaGenState.mk (k + 1) (some t)) := by
      simp [metadataNewTransaction]
    simp only [generateTransactions, hstep, ih (k + 1), List.range', List.map_cons]

theorem generateTransactions_fresh (t : String) (st : MetaGenState) (n : Nat)
    (h : st.last_time ≠ some t) :
    (generateTransactions t n st).1 = (List.range n).map (mkTransaction t) := by
  cases n with
  | zero => rfl
  | succ n =>
    have hstep : metadataNewTransaction st t =
        (mkTransaction t 0, MetaGenState.mk 1 (some t)) := by
      simp [metadataNewTransaction, h]
    simp only [generateTransactions, hstep, generateTransactions_from_counter t n 1]
    rw [List.range_eq_range']
    simp [List.range', List.map_cons]

/-- Whatever the starting class state, the ids generated within one formatted
second are the transactions of consecutive counters: continuing at the stored
counter when the second matches the stored last time, restarting at zero
otherwise. -/
theorem generateTransactions_ids (t : String) (st : MetaGenState) (n : Nat) :
    (generateTransactions t n st).1 =
      (List.range' (if st.last_time = some t then st.counter else 0) n).map
        (mkTransaction t) := by
  by_cases h : st.last_time = some t
  · rw [if_pos h]
    obtain ⟨c, ltime⟩ := st
    simp only at h
    subst h
    exact generateTransactions_from_counter t n c
  · rw [if_neg h, generateTransactions_fresh t st n h, List.range_eq_range']

/-- C5: for every sequence of Metadata objects created with transaction
unspecified within the same formatted wall-clock second - at most 1,000,000
of them generated in that second in total - the ids are pairwise distinct and
lexically increasing; and generation never raises for any count whatsoever
(the embedding is total: every request yields an id, wrap-around included). -/
theorem C5_transaction_ids_distinct_increasing (st : MetaGenState) (t : String) (n : Nat)
    (hn : (if st.last_time = some t then st.counter else 0) + n ≤ 1000000) :
    (generateTransactions t n st).1.length = n ∧
      (generateTransactions t n st).1.Nodup ∧
      List.Pairwise (fun a b => a < b) (generateTransactions t n st).1 ∧
      ∀ k : Nat, (generateTransactions t k st).1.length = k := by
  refine ⟨generateTransactions_length t n st, ?_, ?_, fun k => generateTransactions_length t k st⟩
  · rw [generateTransactions_ids]
    exact List.Nodup.map (mkTransaction_injective t) (List.nodup_range' _ _)
  · rw [generateTransactions_ids, List.pairwise_map]
    refine List.Pairwise.imp_of_mem ?_ (List.pairwise_lt_range' _ _)
    intro a b ha hb hab
    have hb2 := (List.mem_range'_1.mp hb).2
    exact mkTransaction_lt t a b hab (by norm_num at hn hb2 ⊢; omega)

/-- Witness for C5: three ids generated inside one concrete fresh second. -/
theorem C5_transaction_ids_distinct_increasing_witness :
    (generateTransactions "20250101-000000" 3 (MetaGenState.mk 0 none)).1.length = 3 ∧
      (generateTransactions "20250101-000000" 3 (MetaGenState.mk 0 none)).1.Nodup ∧
      List.Pairwise (fun a b => a < b)
        (generateTransactions "20250101-000000" 3 (MetaGenState.mk 0 none)).1 ∧
      ∀ k : Nat,
        (generateTransactions "20250101-000000" k (MetaGenState.mk 0 none)).1.length = k :=
  C5_transaction_ids_distinct_increasing (MetaGenState.mk 0 none) "20250101-000000" 3
    (by decide)

/-! ### Module lifecycle (src/looselycoupled/module.py) -/

/-- The States enum of module.py: inactive=1, passive=2, active=3. -/
inductive States where
  | inactive
  | passive
  | active
deriving DecidableEq, Repr

/-- Task handles are identified abstractly. -/
abbrev TaskId := Nat

/-- The mutable fields of a Module instance that the lifecycle methods touch,
plus the method names a concrete subclass defines in addition to the base
class (used by getattr-based dispatch). -/
structure ModState where
  name : String
  state : States
  task_passive : Option TaskId
  task_active : Option TaskId
  event_no_longer_active : Bool
  event_no_longer_passive : Bool
  extraMethods : List String
deriving DecidableEq, Repr

/-- The method names defined on the Module base class itself (what getattr
finds on every module). -/
def baseMethods : List String :=
  ["get_method", "call_method", "exec_task", "exec_task_threadsafe",
   "enqueue_task", "enqueue_task_threadsafe", "trigger_event",
   "trigger_event_threadsafe", "register_task", "get_config",
   "run_passively", "_run_passively", "run", "_run", "initialize",
   "startup", "activate", "deactivate", "initiate_shutdown",
   "finalize_shutdown"]

/-- Whether getattr(module, methodname) succeeds: the name is defined on the
base class or on the concrete subclass. -/
def hasMethod (m : ModState) (methodname : String) : Bool :=
  baseMethods.contains methodname || m.extraMethods.contains methodname

/-- Observable actions of Module._run. -/
inductive RunAction where
  | warnedNotPassive
  | ranBody
deriving DecidableEq, Repr

/-- Embeds Module._run: if the state is passive, move to active, otherwise
only log a warning; in both cases the overridable run(metadata) body is then
invoked. -/
def moduleRunInternal (m : ModState) : ModState × List RunAction :=
  if m.state = States.passive then
    ({ m with state := States.active }, [RunAction.ranBody])
  else (m, [RunAction.warnedNotPassive, RunAction.ranBody])

/-- Embeds Module._run_passively: set the state to passive, then invoke the
overridable run_passively(metadata) body. -/
def moduleRunPassively (m : ModState) : ModState :=
  { m with state := States.passive }

/-- Embeds Module.deactivate: only when active, go back to passive and set
the no-longer-active threading event. -/
def moduleDeactivate (m : ModState) : ModState :=
  if m.state = States.active then
    { m with state := States.passive, event_no_longer_active := true }
  else m

/-- Embeds Module.initiate_shutdown: detach the active-phase task handle if
still set, go to inactive, set the no-longer-passive threading event. -/
def moduleInitiateShutdown (m : ModState) : ModState :=
  let m1 := if m.task_active ≠ none then { m with task_active := none } else m
  { m1 with state := States.inactive, event_no_longer_passive := true }

/-- Embeds Module.finalize_shutdown: assert that the active-phase task handle
is cleared (AssertionError otherwise), then detach the passive-phase task
handle if still set. -/
def moduleFinalizeShutdown (m : ModState) : Except PyError ModState :=
  if m.task_active ≠ none then Except.error PyError.assertionError
  else Except.ok (if m.task_passive ≠ none then { m with task_passive := none } else m)

/-- Return values of embedded Python calls (None, booleans, or the opaque
result of a subclass-defined method). -/
inductive PyValue where
  | noneVal
  | boolVal (b : Bool)
  | resultOf (methodname : String)
deriving DecidableEq, Repr

/-- Embeds Module.call_method for the methods whose bodies belong to the
framework: the four lifecycle state-machine methods act on the module state;
any other existing method (base helper or subclass method) is invoked and
returns an opaque result without framework-level state effect; an unknown
method name is only logged (when log_unknown) and the call returns None. -/
def callMethod (m : ModState) (methodname : String) (log_unknown : Bool) :
    Except PyError (ModState × PyValue) :=
  if methodname = "deactivate" then Except.ok (moduleDeactivate m, PyValue.noneVal)
  else if methodname = "initiate_shutdown" then
    Except.ok (moduleInitiateShutdown m, PyValue.noneVal)
  else if methodname = "finalize_shutdown" then
    (moduleFinalizeShutdown m).map (fun m2 => (m2, PyValue.noneVal))
  else if methodname = "_run" then Except.ok ((moduleRunInternal m).1, PyValue.noneVal)
  else if methodname = "_run_passively" then Except.ok (moduleRunPassively m, PyValue.noneVal)
  else if hasMethod m methodname then Except.ok (m, PyValue.resultOf methodname)
  else Except.ok (m, PyValue.noneVal)

/-! ### Module manager (src/looselycoupled/modulemanager.py) -/

/-- A delivery record of the broadcast loop: either the handler was scheduled
as a concurrent task (asynchronous branch, via schedule_method) or invoked
inline (synchronous branch, via call_method). -/
inductive Delivery where
  | scheduled (moduleName : String) (methodname : String)
  | called (moduleName : String) (methodname : String)
deriving DecidableEq, Repr

/-- The module name a delivery went to. -/
def Delivery.target : Delivery → String
  | .scheduled n _ => n
  | .called n _ => n

/-- Whether metadata.source_obj is the given module object (Python object
identity; modules are identified by their registry name). -/
def sourceMatches (src : Source) (m : ModState) : Bool :=
  match src with
  | Source.moduleObj n => n = m.name
  | _ => false

/-- The for-loop of ModuleManager.broadcast_event_internal over the ordered
module registry: skip the metadata source (split horizon); in asynchronous
mode schedule the handler as a task when the method exists (its body runs
later, outside this sequential step); in synchronous mode invoke call_method
inline with log_unknown=False. -/
def broadcastLoop (ev : String) (src : Source) (asynchronous : Bool) :
    List ModState → Except PyError (List ModState × List Delivery)
  | [] => Except.ok ([], [])
  | m :: rest =>
    if sourceMatches src m then
      match broadcastLoop ev src asynchronous rest with
      | Except.error e => Except.error e
      | Except.ok (ms, ds) => Except.ok (m :: ms, ds)
    else if asynchronous then
      match broadcastLoop ev src asynchronous rest with
      | Except.error e => Except.error e
      | Except.ok (ms, ds) =>
        Except.ok (m :: ms,
          (if hasMethod m ev then [Delivery.scheduled m.name ev] else []) ++ ds)
    else
      match callMethod m ev false with
      | Except.error e => Except.error e
      | Except.ok (m2, _) =>
        match broadcastLoop ev src asynchronous rest with
        | Except.error e => Except.error e
        | Except.ok (ms, ds) =>
          Except.ok (m2 :: ms,
            (if hasMethod m ev then [Delivery.called m.name ev] else []) ++ ds)

/-- Manager state for broadcasting: the ordered module registry and the
internal exit flag. -/
structure MgrState where
  modules : List ModState
  exitFlag : Bool
deriving DecidableEq, Repr

/-- Embeds ModuleManager.broadcast_event_internal: run the delivery loop;
then, exactly when the event is on_exit, set the exit flag and run the three
shutdown broadcasts sequentially (asynchronous=False) with manager-sourced
metadata.  The source performs these as recursive calls; since the recursive
events are never on_exit themselves, one unfolding of the recursion is
exact. -/
def broadcastEventInternal (ev : String) (md : Metadata) (asynchronous : Bool)
    (st : MgrState) : Except PyError (MgrState × List Delivery) :=
  match broadcastLoop ev md.source_obj asynchronous st.modules with
  | Except.error e => Except.error e
  | Except.ok (ms1, ds1) =>
    if ev = "on_exit" then
      match broadcastLoop "deactivate" Source.manager false ms1 with
      | Except.error e => Except.error e
      | Except.ok (ms2, ds2) =>
        match broadcastLoop "initiate_shutdown" Source.manager false ms2 with
        | Except.error e => Except.error e
        | Except.ok (ms3, ds3) =>
          match broadcastLoop "finalize_shutdown" Source.manager false ms3 with
          | Except.error e => Except.error e
          | Except.ok (ms4, ds4) =>
            Except.ok (MgrState.mk ms4 true, ds1 ++ ds2 ++ ds3 ++ ds4)
    else Except.ok (MgrState.mk ms1 st.exitFlag, ds1)

/-- The three lifecycle shutdown broadcasts, in protocol order. -/
def lifecycleEvents : List String :=
  ["deactivate", "initiate_shutdown", "finalize_shutdown"]

/-- The sequence of lifecycle shutdown handlers a given module observes being
invoked on it, in trace order. -/
def observedLifecycle (ds : List Delivery) (name : String) : List String :=
  ds.filterMap (fun d =>
    match d with
    | Delivery.called n ev => if n = name ∧ ev ∈ lifecycleEvents then some ev else none
    | Delivery.scheduled _ _ => none)

/-! ### Idle detection and the dispatch loop
(ModuleManager.queue_empty, EventLoop.process_task) -/

/-- The manager bookkeeping that queue_empty consults: the exit flag and the
running/finished task sets (task handles keyed by label in the source; only
the key sets matter here). -/
structure IdleState where
  exitFlag : Bool
  running : List TaskId
  finished : List TaskId
deriving DecidableEq, Repr

instance : Inhabited IdleState := ⟨⟨false, [], []⟩⟩

/-- Embeds ModuleManager.queue_empty: gather (and clear) the finished tasks;
broadcast becoming_idle, whose asynchronously scheduled handlers may add new
running tasks (idleTasks); then, only if the exit flag is set, await all
running tasks - an await point during which the state evolves as
gatherEvolve describes (completed tasks leave the running set via their done
callbacks, and concurrently completing work may add new ones) - and report
True exactly when no running task remains afterwards. -/
def queueEmpty (idleTasks : List TaskId) (gatherEvolve : IdleState → IdleState)
    (st : IdleState) : IdleState × Bool :=
  let st1 := { st with finished := [] }
  let st2 := { st1 with running := st1.running ++ idleTasks }
  if st2.exitFlag then
    let st3 := gatherEvolve st2
    if st3.running.length = 0 then (st3, true) else (st3, false)
  else (st2, false)

/-- Result of one EventLoop.process_task step: the remaining queue, the value
of the _running flag, the manager state, and the returned continue flag. -/
structure StepResult where
  queue : List QueueItem
  runningFlag : Bool
  mgr : IdleState
  continueLoop : Bool
deriving DecidableEq, Repr

instance : Inhabited StepResult := ⟨⟨[], true, default, true⟩⟩

/-- Embeds EventLoop.process_task: get one item from the queue (suspending,
i.e. no step, when it is empty), process it through the caller-supplied item
processor, and when the queue is now empty consult the queue-empty callback:
if it reports True, clear the _running flag and return False, else return
True. -/
def processTask (processItem : QueueItem → IdleState → IdleState)
    (idleTasks : List TaskId) (gatherEvolve : IdleState → IdleState)
    (q : List QueueItem) (runningFlag : Bool) (mgr : IdleState) :
    Option StepResult :=
  match q with
  | [] => none
  | item :: rest =>
    let mgr1 := processItem item mgr
    if rest.isEmpty then
      let p := queueEmpty idleTasks gatherEvolve mgr1
      if p.2 then some (StepResult.mk rest false p.1 false)
      else some (StepResult.mk rest runningFlag p.1 true)
    else some (StepResult.mk rest runningFlag mgr1 true)

/-! ### Task resolution (ModuleManager.exec_task_internal) -/

/-- Split a character list at the first dot, as str.partition does. -/
def breakAtDot : List Char → List Char × Option (List Char)
  | [] => ([], none)
  | c :: cs =>
    if c = Char.ofNat 46 then ([], some cs)
    else
      let p := breakAtDot cs
      (c :: p.1, p.2)

/-- Embeds target.partition of the dot: the module portion before the first
dot and the method portion after it (empty when there is no dot). -/
def partitionDot (s : String) : String × String :=
  let p := breakAtDot s.data
  (String.mk p.1, String.mk (p.2.getD []))

/-- Embeds ModuleManager.is_ready_module: False for an unregistered name,
otherwise the module is_ready property (state passive or active). -/
def isReadyModule (ms : List ModState) (modulename : String) : Bool :=
  match ms.find? (fun m => m.name = modulename) with
  | none => false
  | some m => m.state = States.passive || m.state = States.active

/-- Replace the registry entry of the given name (registry names are unique,
the dict is keyed by name). -/
def updateModule (ms : List ModState) (modulename : String) (m2 : ModState) :
    List ModState :=
  ms.map (fun m => if m.name = modulename then m2 else m)

/-- Embeds ModuleManager.exec_task_internal: split the target on the first
dot; when the module is unknown or not ready, log an error and return None;
otherwise, in asynchronous mode schedule the method (returning False), and
in synchronous mode invoke call_method inline, returning its result. -/
def execTaskInternal (ms : List ModState) (target : String) (md : Metadata)
    (asynchronous : Bool) : Except PyError (List ModState × List Delivery × PyValue) :=
  let p := partitionDot target
  if ¬ isReadyModule ms p.1 then Except.ok (ms, [], PyValue.noneVal)
  else
    match ms.find? (fun m => m.name = p.1) with
    | none => Except.ok (ms, [], PyValue.noneVal)
    | some m =>
      if asynchronous then
        Except.ok (ms,
          (if hasMethod m p.2 then [Delivery.scheduled m.name p.2] else []),
          PyValue.boolVal false)
      else
        match callMethod m p.2 true with
        | Except.error e => Except.error e
        | Except.ok (m2, v) =>
          Except.ok (updateModule ms p.1 m2,
            (if hasMethod m p.2 then [Delivery.called m.name p.2] else []), v)

/-! ### Backpressure wait loop (ModuleManager.schedule_method) -/

/-- The while loop of wait_for_free_task_slot, returning the list of sleep
durations in milliseconds.  cond i is the i-th evaluation of wait_condition
(the in-flight task count still exceeds three times the module count); after
each sleep the duration doubles while it is below one second, and once it is
not, the loop logs a warning and breaks rather than waiting further. -/
def waitSleeps (cond : Nat → Bool) (i : Nat) (s : Nat) (hs : 0 < s) : List Nat :=
  if cond i then
    s :: (if h : s < 1000 then waitSleeps cond (i + 1) (2 * s) (by omega) else [])
  else []
termination_by 1000 - s
decreasing_by omega

/-- Embeds wait_for_free_task_slot of schedule_method: no wait at all unless
the condition holds, then the sleep loop starting at one millisecond. -/
def waitForFreeTaskSlot (cond : Nat → Bool) : List Nat :=
  if cond 0 then waitSleeps cond 1 1 (by omega) else []

/-! ### Claims about the module lifecycle -/

/-- C8: invoking activate on a module whose state is not passive (its body
Module._run, which activate schedules) leaves the module unchanged and logs
the not-passive warning; the transition to active happens only from
passive. -/
theorem C8_activate_not_passive_keeps_state (m : ModState)
    (h : m.state ≠ States.passive) :
    (moduleRunInternal m).1 = m ∧
      RunAction.warnedNotPassive ∈ (moduleRunInternal m).2 := by
  simp [moduleRunInternal, h]

/-- Witness for C8 at a concrete inactive module. -/
theorem C8_activate_not_passive_keeps_state_witness :
    (moduleRunInternal (ModState.mk "mod" States.inactive none none false false [])).1 =
        ModState.mk "mod" States.inactive none none false false [] ∧
      RunAction.warnedNotPassive ∈
        (moduleRunInternal (ModState.mk "mod" States.inactive none none false false [])).2 :=
  C8_activate_not_passive_keeps_state
    (ModState.mk "mod" States.inactive none none false false []) (by decide)

/-- C10: when activate is invoked on a module that is not passive, the
refused transition does not suppress the call to run(metadata): the body
still executes while the state stays unchanged. -/
theorem C10_run_body_executes_despite_refusal (m : ModState)
    (h : m.state ≠ States.passive) :
    RunAction.ranBody ∈ (moduleRunInternal m).2 ∧
      (moduleRunInternal m).1.state = m.state := by
  simp [moduleRunInternal, h]

/-- Witness for C10 at a concrete active module. -/
theorem C10_run_body_executes_despite_refusal_witness :
    RunAction.ranBody ∈
        (moduleRunInternal (ModState.mk "act" States.active none none false false [])).2 ∧
      (moduleRunInternal (ModState.mk "act" States.active none none false false [])).1.state =
        (ModState.mk "act" States.active none none false false []).state :=
  C10_run_body_executes_despite_refusal
    (ModState.mk "act" States.active none none false false []) (by decide)

/-- C9: initiate_shutdown always clears the active-phase task handle, so
under the protocol ordering (initiate_shutdown before finalize_shutdown on
each module) finalize_shutdown's assertion never fails. -/
theorem C9_finalize_after_initiate_never_asserts (m : ModState) :
    (moduleInitiateShutdown m).task_active = none ∧
      ∃ m2, moduleFinalizeShutdown (moduleInitiateShutdown m) = Except.ok m2 := by
  have hclear : (moduleInitiateShutdown m).task_active = none := by
    by_cases h : m.task_active = none <;> simp [moduleInitiateShutdown, h]
  refine ⟨hclear, ?_⟩
  simp [moduleFinalizeShutdown, hclear]

/-! ### Claim about idle detection and loop termination -/

/-- C4: the queue-empty callback reports stop exactly when the exit flag is
set and, after awaiting the in-flight tasks, no running task remains; and one
process_task step of the dispatch loop clears the loop's running flag
(returning False) exactly when the queue drained and that callback reported
stop. -/
theorem C4_loop_stops_iff_exit_and_drained
    (idleTasks : List TaskId) (g : IdleState → IdleState) (st : IdleState)
    (processItem : QueueItem → IdleState → IdleState) (item : QueueItem)
    (rest : List QueueItem) (runningFlag : Bool) (mgr : IdleState) :
    ((queueEmpty idleTasks g st).2 = true ↔
      st.exitFlag = true ∧ (queueEmpty idleTasks g st).1.running = []) ∧
    (processTask processItem idleTasks g (item :: rest) runningFlag mgr).isSome = true ∧
    (((processTask processItem idleTasks g (item :: rest) runningFlag mgr).getD
        default).continueLoop = false ↔
      rest = [] ∧ (queueEmpty idleTasks g (processItem item mgr)).2 = true) ∧
    ((processTask processItem idleTasks g (item :: rest) runningFlag mgr).getD
        default).runningFlag =
      (if rest = [] ∧ (queueEmpty idleTasks g (processItem item mgr)).2 = true
        then false else runningFlag) := by
  refine ⟨?_, ?_⟩
  · by_cases hexit : st.exitFlag
    · by_cases hrun : (g { st with finished := [], running := st.running ++ idleTasks }).running.length = 0
      · simp_all [queueEmpty, List.length_eq_zero]
      · simp_all [queueEmpty, List.length_eq_zero]
    · simp_all [queueEmpty]
  · by_cases hrest : rest = []
    · by_cases hq : (queueEmpty idleTasks g (processItem item mgr)).2
      · simp_all [processTask]
      · simp_all [processTask]
    · have : rest.isEmpty = false := by
        cases rest
        · simp at hrest
        · rfl
      simp_all [processTask]

/-! ### Claim about the backpressure wait loop -/

theorem waitSleeps_congr (cond : Nat → Bool) (i : Nat) (s s2 : Nat) (h : 0 < s)
    (h2 : 0 < s2) (hss : s = s2) :
    waitSleeps cond i s h = waitSleeps cond i s2 h2 := by
  subst hss
  rfl

theorem waitSleeps_spec (cond : Nat → Bool) (n : Nat) (hn : n ≤ 10) (i : Nat) :
    ∃ k, k ≤ n + 1 ∧
      waitSleeps cond i (2 ^ (10 - n)) (Nat.pos_pow_of_pos _ (by omega)) =
        (List.range k).map (fun a => 2 ^ (10 - n + a)) ∧
      ((∀ x, cond x = true) → k = n + 1) := by
  induction n generalizing i with
  | zero =>
    by_cases hc : cond i
    · refine ⟨1, le_rfl, ?_, fun _ => rfl⟩
      rw [waitSleeps]
      norm_num [hc]
      decide
    · refine ⟨0, by omega, ?_, fun hall => absurd (hall i) (by simp [hc])⟩
      rw [waitSleeps]
      simp [hc]
  | succ n ih =>
    by_cases hc : cond i
    · obtain ⟨k, hk, heq, hall⟩ := ih (by omega) (i + 1)
      refine ⟨k + 1, by omega, ?_, fun h => by rw [hall h]⟩
      rw [waitSleeps]
      have hlt : (2 : Nat) ^ (10 - (n + 1)) < 1000 := by
        calc (2 : Nat) ^ (10 - (n + 1)) ≤ 2 ^ 9 := Nat.pow_le_pow_right (by omega) (by omega)
          _ < 1000 := by norm_num
      rw [if_pos hc, dif_pos hlt]
      have h2 : 2 * 2 ^ (10 - (n + 1)) = 2 ^ (10 - n) := by
        rw [← pow_succ']
        congr 1
        omega
      rw [waitSleeps_congr cond (i + 1) _ _ _ (Nat.pos_pow_of_pos _ (by omega)) h2, heq]
      rw [List.range_succ_eq_map, List.map_cons, List.map_map]
      congr 1
      apply List.map_congr_left
      intro a _
      simp only [Function.comp]
      congr 1
      omega
    · refine ⟨0, by omega, ?_, fun hall => absurd (hall i) (by simp [hc])⟩
      rw [waitSleeps]
      simp [hc]

/-- C7: the schedule_method wait loop performs the doubling backoff sleeps
(in milliseconds: 1, 2, 4, ...), never more than 11 of them, and exactly 11
when the in-flight condition never drops - after the sleep that reached the
one-second threshold it proceeds rather than waiting further, so the loop
always terminates. -/
theorem C7_backpressure_wait_terminates (cond : Nat → Bool) :
    ∃ k, k ≤ 11 ∧
      waitForFreeTaskSlot cond = (List.range k).map (fun a => 2 ^ a) ∧
      ((∀ x, cond x = true) → k = 11) := by
  by_cases hc : cond 0
  · obtain ⟨k, hk, heq, hall⟩ := waitSleeps_spec cond 10 le_rfl 1
    refine ⟨k, by omega, ?_, fun h => hall h⟩
    rw [waitForFreeTaskSlot, if_pos hc]
    rw [waitSleeps_congr cond 1 1 (2 ^ (10 - 10)) (by omega) (Nat.pos_pow_of_pos _ (by omega))
      (by norm_num), heq]
    apply List.map_congr_left
    intro a _
    norm_num
  · refine ⟨0, by omega, ?_, fun h => absurd (h 0) (by simp [hc])⟩
    rw [waitForFreeTaskSlot, if_neg hc]
    rfl

/-! ### Broadcast lemmas -/

theorem moduleInitiateShutdown_task_active (m : ModState) :
    (moduleInitiateShutdown m).task_active = none := by
  by_cases h : m.task_active = none <;> simp [moduleInitiateShutdown, h]

theorem moduleDeactivate_name (m : ModState) : (moduleDeactivate m).name = m.name := by
  by_cases h : m.state = States.active <;> simp [moduleDeactivate, h]

theorem moduleInitiateShutdown_name (m : ModState) :
    (moduleInitiateShutdown m).name = m.name := by
  by_cases h : m.task_active = none <;> simp [moduleInitiateShutdown, h]

theorem hasMethod_base (m : ModState) (x : String) (hx : baseMethods.contains x = true) :
    hasMethod m x = true := by
  have hx2 : x ∈ baseMethods := by simpa using hx
  simp [hasMethod, hx2]

theorem sourceMatches_manager (m : ModState) : sourceMatches Source.manager m = false := rfl

/-- In asynchronous mode the delivery loop leaves every module unchanged and
only schedules the handlers that exist, skipping the source. -/
theorem broadcastLoop_async (ev : String) (src : Source) (ms : List ModState) :
    broadcastLoop ev src true ms =
      Except.ok (ms,
        (ms.filter (fun m => !(sourceMatches src m) && hasMethod m ev)).map
          (fun m => Delivery.scheduled m.name ev)) := by
  induction ms with
  | nil => rfl
  | cons m rest ih =>
    by_cases hsrc : sourceMatches src m
    · simp [broadcastLoop, hsrc, ih, List.filter_cons]
    · by_cases hmeth : hasMethod m ev
      · simp [broadcastLoop, hsrc, ih, List.filter_cons, hmeth]
      · simp [broadcastLoop, hsrc, ih, List.filter_cons, hmeth]

/-- The synchronous deactivate wave with manager-sourced metadata: every
module is deactivated and observes the call, in registry order. -/
theorem broadcastLoop_deactivate (ms : List ModState) :
    broadcastLoop "deactivate" Source.manager false ms =
      Except.ok (ms.map moduleDeactivate,
        ms.map (fun m => Delivery.called m.name "deactivate")) := by
  induction ms with
  | nil => rfl
  | cons m rest ih =>
    have hmeth : hasMethod m "deactivate" = true := hasMethod_base m _ (by decide)
    simp [broadcastLoop, sourceMatches_manager, callMethod, ih, hmeth]

/-- The synchronous initiate_shutdown wave with manager-sourced metadata. -/
theorem broadcastLoop_initiate (ms : List ModState) :
    broadcastLoop "initiate_shutdown" Source.manager false ms =
      Except.ok (ms.map moduleInitiateShutdown,
        ms.map (fun m => Delivery.called m.name "initiate_shutdown")) := by
  induction ms with
  | nil => rfl
  | cons m rest ih =>
    have hmeth : hasMethod m "initiate_shutdown" = true := hasMethod_base m _ (by decide)
    simp [broadcastLoop, sourceMatches_manager, callMethod, ih, hmeth]

/-- The synchronous finalize_shutdown wave succeeds on every module whose
active-phase task handle is already cleared. -/
theorem broadcastLoop_finalize (ms : List ModState) (h : ∀ m ∈ ms, m.task_active = none) :
    broadcastLoop "finalize_shutdown" Source.manager false ms =
      Except.ok (ms.map (fun m =>
          if m.task_passive ≠ none then { m with task_passive := none } else m),
        ms.map (fun m => Delivery.called m.name "finalize_shutdown")) := by
  induction ms with
  | nil => rfl
  | cons m rest ih =>
    have hmeth : hasMethod m "finalize_shutdown" = true := hasMethod_base m _ (by decide)
    have hm : m.task_active = none := h m (by simp)
    have hrest := ih (fun x hx => h x (List.mem_cons_of_mem _ hx))
    simp [broadcastLoop, sourceMatches_manager, callMethod, moduleFinalizeShutdown, hm,
      hrest, hmeth, Except.map]

theorem map_called_of_name_preserving (f : ModState → ModState)
    (hf : ∀ m, (f m).name = m.name) (ms : List ModState) (ev : String) :
    (ms.map f).map (fun m => Delivery.called m.name ev) =
      ms.map (fun m => Delivery.called m.name ev) := by
  rw [List.map_map]
  apply List.map_congr_left
  intro m _
  simp [Function.comp, hf]

theorem observedLifecycle_append (ds1 ds2 : List Delivery) (name : String) :
    observedLifecycle (ds1 ++ ds2) name =
      observedLifecycle ds1 name ++ observedLifecycle ds2 name := by
  simp [observedLifecycle, List.filterMap_append]

theorem observedLifecycle_scheduled (ls : List ModState) (p : ModState → Bool)
    (ev : String) (name : String) :
    observedLifecycle ((ls.filter p).map (fun m => Delivery.scheduled m.name ev)) name =
      [] := by
  induction ls with
  | nil => rfl
  | cons m rest ih =>
    by_cases hp : p m
    · simp only [List.filter_cons, hp, if_true, List.map_cons]
      simp [observedLifecycle, ih]
    · simp only [List.filter_cons, hp, Bool.false_eq_true, if_false]
      exact ih

theorem observedLifecycle_wave_absent (ms : List ModState) (name ev : String)
    (h : ¬ name ∈ ms.map ModState.name) :
    observedLifecycle (ms.map (fun m => Delivery.called m.name ev)) name = [] := by
  induction ms with
  | nil => rfl
  | cons m rest ih =>
    have hm : ¬ m.name = name := by
      intro he
      exact h (by simp [he])
    have hrest := ih (fun hx => h (by
      simp only [List.map_cons, List.mem_cons]
      exact Or.inr hx))
    simp only [List.map_cons]
    simp [observedLifecycle, hm] at hrest ⊢
    exact hrest

theorem observedLifecycle_wave (ms : List ModState) (name ev : String)
    (hev : ev ∈ lifecycleEvents) (hnodup : (ms.map ModState.name).Nodup)
    (hmem : name ∈ ms.map ModState.name) :
    observedLifecycle (ms.map (fun m => Delivery.called m.name ev)) name = [ev] := by
  induction ms with
  | nil => simp at hmem
  | cons m rest ih =>
    simp only [List.map_cons, List.nodup_cons] at hnodup
    by_cases hname : m.name = name
    · have habsent : ¬ name ∈ rest.map ModState.name := by
        rw [← hname]
        exact hnodup.1
      have hrest := observedLifecycle_wave_absent rest name ev habsent
      simp only [List.map_cons]
      simp [observedLifecycle, hname, hev] at hrest ⊢
      exact hrest
    · have hmem2 : name ∈ rest.map ModState.name := by
        simp only [List.map_cons, List.mem_cons] at hmem
        rcases hmem with h | h
        · exact absurd h.symm hname
        · exact h
      have hrest := ih hnodup.2 hmem2
      simp only [List.map_cons]
      simp [observedLifecycle, hname] at hrest ⊢
      exact hrest

/-- C2: dequeuing the reserved exit broadcast (target on_exit) makes the
manager set the internal exiting flag, and every registered module then
observes exactly the lifecycle broadcasts deactivate, initiate_shutdown,
finalize_shutdown, in that order; the three waves are delivered sequentially
(synchronous call_method, one wave completing over all modules before the
next starts), and the whole protocol never raises. -/
theorem C2_exit_broadcast_protocol (st : MgrState) (md : Metadata)
    (hnodup : (st.modules.map ModState.name).Nodup) :
    ∃ st2 ds,
      broadcastEventInternal "on_exit" md true st = Except.ok (st2, ds) ∧
        st2.exitFlag = true ∧
        ∀ name ∈ st.modules.map ModState.name,
          observedLifecycle ds name =
            ["deactivate", "initiate_shutdown", "finalize_shutdown"] := by
  have hTA : ∀ m ∈ (st.modules.map moduleDeactivate).map moduleInitiateShutdown,
      m.task_active = none := by
    intro m hm
    simp only [List.mem_map] at hm
    obtain ⟨x, ⟨y, hy, rfl⟩, rfl⟩ := hm
    exact moduleInitiateShutdown_task_active _
  have hres :
      broadcastEventInternal "on_exit" md true st =
        Except.ok
          (MgrState.mk
            (((st.modules.map moduleDeactivate).map moduleInitiateShutdown).map
              (fun m => if m.task_passive ≠ none then { m with task_passive := none } else m))
            true,
          ((st.modules.filter
              (fun m => !(sourceMatches md.source_obj m) && hasMethod m "on_exit")).map
              (fun m => Delivery.scheduled m.name "on_exit") ++
            st.modules.map (fun m => Delivery.called m.name "deactivate") ++
            (st.modules.map moduleDeactivate).map
              (fun m => Delivery.called m.name "initiate_shutdown") ++
            ((st.modules.map moduleDeactivate).map moduleInitiateShutdown).map
              (fun m => Delivery.called m.name "finalize_shutdown"))) := by
    simp only [broadcastEventInternal, broadcastLoop_async, broadcastLoop_deactivate,
      broadcastLoop_initiate, broadcastLoop_finalize _ hTA]
    simp
  refine ⟨_, _, hres, rfl, ?_⟩
  intro name hname
  rw [observedLifecycle_append, observedLifecycle_append, observedLifecycle_append]
  rw [observedLifecycle_scheduled]
  simp only [map_called_of_name_preserving moduleInitiateShutdown moduleInitiateShutdown_name,
    map_called_of_name_preserving moduleDeactivate moduleDeactivate_name]
  rw [observedLifecycle_wave _ _ _ (by decide) hnodup hname,
    observedLifecycle_wave _ _ _ (by decide) hnodup hname,
    observedLifecycle_wave _ _ _ (by decide) hnodup hname]
  rfl

/-- Witness for C2 on a concrete two-module registry. -/
theorem C2_exit_broadcast_protocol_witness :
    ∃ st2 ds,
      broadcastEventInternal "on_exit" (mkMeta "t0" Priority.NORMAL) true
          (MgrState.mk
            [ModState.mk "alpha" States.active none none false false [],
             ModState.mk "beta" States.passive none none false false []] false) =
        Except.ok (st2, ds) ∧
        st2.exitFlag = true ∧
        ∀ name ∈
            (MgrState.mk
              [ModState.mk "alpha" States.active none none false false [],
               ModState.mk "beta" States.passive none none false false []]
              false).modules.map ModState.name,
          observedLifecycle ds name =
            ["deactivate", "initiate_shutdown", "finalize_shutdown"] :=
  C2_exit_broadcast_protocol
    (MgrState.mk
      [ModState.mk "alpha" States.active none none false false [],
       ModState.mk "beta" States.passive none none false false []] false)
    (mkMeta "t0" Priority.NORMAL) (by decide)

/-- When the delivery loop succeeds, its deliveries are exactly one per
registered module that is not the metadata source and has the handler, in
registry order (scheduled in asynchronous mode, called in synchronous
mode). -/
theorem broadcastLoop_ok_deliveries (ev : String) (src : Source) (a : Bool)
    (ms ms2 : List ModState) (ds : List Delivery)
    (hok : broadcastLoop ev src a ms = Except.ok (ms2, ds)) :
    ds = (ms.filter (fun m => !(sourceMatches src m) && hasMethod m ev)).map
      (fun m => if a then Delivery.scheduled m.name ev else Delivery.called m.name ev) := by
  induction ms generalizing ms2 ds with
  | nil =>
    simp only [broadcastLoop, Except.ok.injEq, Prod.mk.injEq] at hok
    simp [← hok.2]
  | cons m rest ih =>
    rw [broadcastLoop] at hok
    by_cases hsrc : sourceMatches src m
    · rw [if_pos hsrc] at hok
      cases hrest : broadcastLoop ev src a rest with
      | error e =>
        rw [hrest] at hok
        exact absurd hok (by simp)
      | ok p =>
        obtain ⟨msR, dsR⟩ := p
        rw [hrest] at hok
        simp only [Except.ok.injEq, Prod.mk.injEq] at hok
        rw [List.filter_cons, if_neg (by simp [hsrc])]
        rw [← hok.2]
        exact ih msR dsR hrest
    · rw [if_neg hsrc] at hok
      by_cases ha : a = true
      · subst ha
        rw [if_pos rfl] at hok
        cases hrest : broadcastLoop ev src true rest with
        | error e =>
          rw [hrest] at hok
          exact absurd hok (by simp)
        | ok p =>
          obtain ⟨msR, dsR⟩ := p
          rw [hrest] at hok
          simp only [Except.ok.injEq, Prod.mk.injEq] at hok
          rw [← hok.2, ih msR dsR hrest, List.filter_cons]
          by_cases hmeth : hasMethod m ev
          · simp [hsrc, hmeth]
          · simp [hsrc, hmeth]
      · have ha2 : a = false := by
          cases a
          · rfl
          · exact absurd rfl ha
        subst ha2
        rw [if_neg (by simp)] at hok
        cases hcall : callMethod m ev false with
        | error e =>
          rw [hcall] at hok
          exact absurd hok (by simp)
        | ok q =>
          obtain ⟨m2, v⟩ := q
          rw [hcall] at hok
          cases hrest : broadcastLoop ev src false rest with
          | error e =>
            rw [hrest] at hok
            exact absurd hok (by simp)
          | ok p =>
            obtain ⟨msR, dsR⟩ := p
            rw [hrest] at hok
            simp only [Except.ok.injEq, Prod.mk.injEq] at hok
            rw [← hok.2, ih msR dsR hrest, List.filter_cons]
            by_cases hmeth : hasMethod m ev
            · simp [hsrc, hmeth]
            · simp [hsrc, hmeth]

theorem delivery_target_of_mode (a : Bool) (ev n : String) :
    (if a then Delivery.scheduled n ev else Delivery.called n ev).target = n := by
  cases a <;> rfl

/-- Among the deliveries of one wave, the number addressed to a given name is
the number of wave modules carrying that name. -/
theorem wave_deliveries_count (ls : List ModState) (ev : String) (a : Bool)
    (name : String) :
    ((ls.map (fun m => if a then Delivery.scheduled m.name ev
        else Delivery.called m.name ev)).filter
      (fun d => d.target = name)).length = (ls.map ModState.name).count name := by
  induction ls with
  | nil => rfl
  | cons m rest ih =>
    by_cases hname : m.name = name
    · simp [List.filter_cons, List.count_cons, delivery_target_of_mode, hname, ih]
    · simp [List.filter_cons, List.count_cons, delivery_target_of_mode, hname, ih]

theorem name_mem_filter_iff (ms : List ModState)
    (hnodup : (ms.map ModState.name).Nodup) (p : ModState → Bool) (m : ModState)
    (hm : m ∈ ms) :
    m.name ∈ (ms.filter p).map ModState.name ↔ p m = true := by
  constructor
  · intro h
    simp only [List.mem_map] at h
    obtain ⟨m2, hm2f, hnameeq⟩ := h
    have hm2 : m2 ∈ ms := List.mem_of_mem_filter hm2f
    have hp2 : p m2 = true := List.of_mem_filter hm2f
    have heq : m2 = m := List.inj_on_of_nodup_map hnodup hm2 hm hnameeq
    rw [← heq]
    exact hp2
  · intro hp
    exact List.mem_map_of_mem _ (List.mem_filter_of_mem hm hp)

/-- C3: for every broadcast whose metadata records module M as source, each
registered module other than M receives the handler exactly once when it
defines it, and M itself never receives it (split horizon); this holds for
both delivery modes of the loop. -/
theorem C3_split_horizon_exactly_once (ev : String) (M : String) (a : Bool)
    (ms ms2 : List ModState) (ds : List Delivery)
    (hnodup : (ms.map ModState.name).Nodup)
    (hok : broadcastLoop ev (Source.moduleObj M) a ms = Except.ok (ms2, ds)) :
    ∀ m ∈ ms,
      ((ds.filter (fun d => d.target = m.name)).length =
        if m.name ≠ M ∧ hasMethod m ev = true then 1 else 0) := by
  intro m hm
  rw [broadcastLoop_ok_deliveries ev (Source.moduleObj M) a ms ms2 ds hok]
  rw [wave_deliveries_count]
  have hnodupf : ((ms.filter
      (fun x => !(sourceMatches (Source.moduleObj M) x) && hasMethod x ev)).map
        ModState.name).Nodup := by
    apply List.Nodup.sublist _ hnodup
    exact List.Sublist.map _ (List.filter_sublist ms)
  by_cases hcond : m.name ≠ M ∧ hasMethod m ev = true
  · have hmem : m.name ∈ (ms.filter
        (fun x => !(sourceMatches (Source.moduleObj M) x) && hasMethod x ev)).map
          ModState.name := by
      rw [name_mem_filter_iff ms hnodup _ m hm]
      simp [sourceMatches, hcond.2]
      intro he
      exact hcond.1 he.symm
    rw [if_pos hcond]
    exact List.count_eq_one_of_mem hnodupf hmem
  · have hmem : ¬ m.name ∈ (ms.filter
        (fun x => !(sourceMatches (Source.moduleObj M) x) && hasMethod x ev)).map
          ModState.name := by
      rw [name_mem_filter_iff ms hnodup _ m hm]
      simp only [not_and_or] at hcond
      rcases hcond with h | h
      · simp only [not_not] at h
        simp [sourceMatches, h]
      · simp [sourceMatches, h]
    rw [if_neg hcond]
    exact List.count_eq_zero_of_not_mem hmem

/-- Witness for C3: a two-module registry, source module alpha, synchronous
deactivate broadcast; alpha (the source) receives nothing, beta exactly
once. -/
theorem C3_split_horizon_exactly_once_witness :
    ((([Delivery.called "beta" "deactivate"].filter
        (fun d => d.target = (ModState.mk "alpha" States.active none none false false []).name)).length =
      if (ModState.mk "alpha" States.active none none false false []).name ≠ "alpha" ∧
          hasMethod (ModState.mk "alpha" States.active none none false false []) "deactivate" = true
        then 1 else 0)) ∧
    ((([Delivery.called "beta" "deactivate"].filter
        (fun d => d.target = (ModState.mk "beta" States.active none none false false []).name)).length =
      if (ModState.mk "beta" States.active none none false false []).name ≠ "alpha" ∧
          hasMethod (ModState.mk "beta" States.active none none false false []) "deactivate" = true
        then 1 else 0)) :=
  And.intro
    (C3_split_horizon_exactly_once "deactivate" "alpha" false
      [ModState.mk "alpha" States.active none none false false [],
       ModState.mk "beta" States.active none none false false []]
      [ModState.mk "alpha" States.active none none false false [],
       ModState.mk "beta" States.passive none none true false []]
      [Delivery.called "beta" "deactivate"]
      (by decide) (by rfl)
      (ModState.mk "alpha" States.active none none false false []) (by decide))
    (C3_split_horizon_exactly_once "deactivate" "alpha" false
      [ModState.mk "alpha" States.active none none false false [],
       ModState.mk "beta" States.active none none false false []]
      [ModState.mk "alpha" States.active none none false false [],
       ModState.mk "beta" States.passive none none true false []]
      [Delivery.called "beta" "deactivate"]
      (by decide) (by rfl)
      (ModState.mk "beta" States.active none none false false []) (by decide))

theorem updateModule_self (ms : List ModState) (hnodup : (ms.map ModState.name).Nodup)
    (name : String) (m : ModState)
    (hfind : ms.find? (fun x => x.name = name) = some m) :
    updateModule ms name m = ms := by
  have hmem : m ∈ ms := List.mem_of_find?_eq_some hfind
  have hpm : m.name = name := by
    have := List.find?_some hfind
    simpa using this
  rw [updateModule]
  conv_rhs => rw [← List.map_id ms]
  apply List.map_congr_left
  intro x hx
  by_cases hxname : x.name = name
  · have hxm : x = m := List.inj_on_of_nodup_map hnodup hx hmem (by rw [hxname, hpm])
    simp [hxname, hxm]
  · simp [hxname]

/-- C6: a resolution failure in exec_task_internal - unknown module, module
not in a ready state, or a known module with an unknown method name - is
non-fatal: the synchronous call returns None, leaves the registry untouched,
delivers nothing, and raises no exception. -/
theorem C6_resolution_errors_return_none (ms : List ModState) (target : String)
    (md : Metadata) (hnodup : (ms.map ModState.name).Nodup)
    (h : isReadyModule ms (partitionDot target).1 = false ∨
      ∃ m, ms.find? (fun x => x.name = (partitionDot target).1) = some m ∧
        hasMethod m (partitionDot target).2 = false) :
    execTaskInternal ms target md false = Except.ok (ms, [], PyValue.noneVal) := by
  rcases h with h | ⟨m, hfind, hmeth⟩
  · simp [execTaskInternal, h]
  · by_cases hready : isReadyModule ms (partitionDot target).1
    · have h1 : (partitionDot target).2 ≠ "deactivate" := by
        intro he
        rw [he, hasMethod_base m _ (by decide)] at hmeth
        exact Bool.noConfusion hmeth
      have h2 : (partitionDot target).2 ≠ "initiate_shutdown" := by
        intro he
        rw [he, hasMethod_base m _ (by decide)] at hmeth
        exact Bool.noConfusion hmeth
      have h3 : (partitionDot target).2 ≠ "finalize_shutdown" := by
        intro he
        rw [he, hasMethod_base m _ (by decide)] at hmeth
        exact Bool.noConfusion hmeth
      have h4 : (partitionDot target).2 ≠ "_run" := by
        intro he
        rw [he, hasMethod_base m _ (by decide)] at hmeth
        exact Bool.noConfusion hmeth
      have h5 : (partitionDot target).2 ≠ "_run_passively" := by
        intro he
        rw [he, hasMethod_base m _ (by decide)] at hmeth
        exact Bool.noConfusion hmeth
      simp [execTaskInternal, hready, hfind, callMethod, h1, h2, h3, h4, h5, hmeth,
        updateModule_self ms hnodup _ m hfind]
    · simp [execTaskInternal, hready]

/-- Witness for C6: calling an unregistered module returns None. -/
theorem C6_resolution_errors_return_none_witness :
    execTaskInternal [ModState.mk "a" States.passive none none false false []] "b.x"
        (mkMeta "t0" Priority.NORMAL) false =
      Except.ok ([ModState.mk "a" States.passive none none false false []], [],
        PyValue.noneVal) :=
  C6_resolution_errors_return_none
    [ModState.mk "a" States.passive none none false false []] "b.x"
    (mkMeta "t0" Priority.NORMAL) (by decide) (Or.inl (by rfl))

end LooselyCoupled
